import Mathlib

/-!
Verification of the `ardunno-cli-gen` source-resolution logic
(`src/generate.ts`): locator parsing (`parseSemver`, `parseGitHub`),
version policy (`canDownloadProtos`, `hasSemverPrefix`, `protoLocation`),
the release download plan with its 1.0.4 compatibility patch, the
generation driver orchestration, and the temporary-directory disposal.

Machine strings are Lean `String`s; the semver library (`valid`,
`new SemVer(..., { loose: true })`, `gte`) is embedded by its strict
grammar and precedence rules, which coincide with the loose ones on
every input that passes the strict `valid` gate used by the code.
-/

namespace ArdunnoCliGen

/-! ### Character classes of the source-reference regular expression

`ghPattern` in `generate.ts` is
`^(?<owner>([0-9a-zA-Z-]+))\/(?<repo>([0-9a-zA-Z-_\.]+))(#(?<commit>([^\s]+)))?$`.
-/

/-- `[0-9a-zA-Z-]`, the owner character class. -/
def ownerChar (c : Char) : Bool :=
  c.isAlphanum || c = '-'

/-- `[0-9a-zA-Z-_\.]`, the repository character class. -/
def repoChar (c : Char) : Bool :=
  c.isAlphanum || c = '-' || c = '_' || c = '.'

/-- JavaScript `\s` (the whitespace class of `RegExp`). -/
def jsSpace (c : Char) : Bool :=
  c = ' ' || c = '\t' || c = '\n' || c = '\r' ||
    c = '\x0b' || c = '\x0c' || c = '\u00A0' || c = '\u1680' ||
    ('\u2000' ≤ c && c ≤ '\u200A') || c = '\u2028' || c = '\u2029' ||
    c = '\u202F' || c = '\u205F' || c = '\u3000' || c = '\uFEFF'

/-- `[^\s]`, the commit character class. -/
def commitChar (c : Char) : Bool :=
  !jsSpace c

/-- The `GitHub` interface of `generate.ts`: owner, repo, and an optional
commit; the commit field is absent when the `#commit` part is absent. -/
structure GitHub where
  owner : String
  repo : String
  commit : Option String := none
deriving DecidableEq, Repr

/-- The `#commit` tail of `ghPattern`: either the end of the input
(no commit group), or `#` followed by one-or-more non-whitespace
characters reaching the end of the input. -/
def parseCommitPart : List Char → Option (Option (List Char))
  | [] => some none
  | h :: rest =>
    if h = '#' then
      if rest.isEmpty then none
      else if rest.all commitChar then some (some rest) else none
    else none

/-- `parseGitHub` of `generate.ts` on character lists: match the anchored
`ghPattern` regular expression. The owner run, the repo run and the commit
run are maximal because `/` is not an owner character and `#` is neither a
repo character nor an owner character, so the backtracking regex match is
equivalent to this deterministic scan. -/
def parseGitHubAfterOwner (o : List Char) : List Char → Option GitHub
  | [] => none
  | sep :: rest2 =>
    if sep = '/' then
      if o.isEmpty || (rest2.takeWhile repoChar).isEmpty then none
      else
        match parseCommitPart (rest2.dropWhile repoChar) with
        | none => none
        | some none =>
          some ⟨String.mk o, String.mk (rest2.takeWhile repoChar), none⟩
        | some (some c) =>
          some ⟨String.mk o, String.mk (rest2.takeWhile repoChar), some (String.mk c)⟩
    else none

/-- Dispatch on the maximal owner run and the rest of the input. -/
def parseGitHubL (cs : List Char) : Option GitHub :=
  parseGitHubAfterOwner (cs.takeWhile ownerChar) (cs.dropWhile ownerChar)

/-- `parseGitHub` of `generate.ts`. -/
def parseGitHub (s : String) : Option GitHub :=
  parseGitHubL s.data

/-- The `arduinoGitHub` constant of `generate.ts`. -/
def arduinoGitHub : GitHub :=
  { owner := "arduino", repo := "arduino-cli" }

/-! ### The semver library, embedded by its strict grammar

`parseSemver` first gates on `valid(src)` (the strict grammar, which
tolerates one leading `v`) and then builds `new SemVer(src, { loose: true })`;
on strictly valid inputs the loose constructor yields the same components,
so a single strict parser models both. -/

/-- A prerelease identifier: numeric (`0|[1-9]\d*`) or alphanumeric
(`\d*[a-zA-Z-][a-zA-Z0-9-]*`). -/
inductive PreId where
  | num (n : Nat)
  | str (s : String)
deriving DecidableEq, Repr

/-- The components a `SemVer` instance carries: the three numbers, the
prerelease identifiers, the build identifiers, and the raw input string. -/
structure MSemVer where
  major : Nat
  minor : Nat
  patch : Nat
  pre : List PreId
  build : List String
  raw : String
deriving DecidableEq, Repr

/-- Decimal digits to a number, most significant first. -/
def digitsToNat (ds : List Char) : Nat :=
  ds.foldl (fun a c => a * 10 + (c.toNat - 48)) 0

/-- A numeric identifier `0|[1-9]\d*`: a maximal nonempty digit run with
no leading zero. -/
def parseNumId (cs : List Char) : Option (Nat × List Char) :=
  match cs.takeWhile Char.isDigit with
  | [] => none
  | d :: ds =>
    if d = '0' ∧ ds ≠ [] then none
    else some (digitsToNat (d :: ds), cs.dropWhile Char.isDigit)

/-- Expect a literal dot. -/
def expectDot : List Char → Option (List Char)
  | [] => none
  | c :: r => if c = '.' then some r else none

/-- `[a-zA-Z0-9-]`, the identifier character class of prerelease and
build identifiers. -/
def idChar (c : Char) : Bool :=
  c.isAlphanum || c = '-'

/-- Split on literal dots; `splitDots [] = [[]]` so that a dangling dot
yields an empty (hence invalid) identifier. -/
def splitDots : List Char → List (List Char)
  | [] => [[]]
  | c :: rest =>
    if c = '.' then [] :: splitDots rest
    else
      match splitDots rest with
      | [] => [[c]]
      | g :: gs => (c :: g) :: gs

/-- Classify one prerelease identifier: all-digit runs are numeric and,
in the strict grammar, must not have a leading zero; otherwise every
character must be alphanumeric or a hyphen. -/
def validPreId : List Char → Option PreId
  | [] => none
  | d :: ds =>
    if (d :: ds).all Char.isDigit then
      if d = '0' ∧ ds ≠ [] then none else some (.num (digitsToNat (d :: ds)))
    else if (d :: ds).all idChar then some (.str (String.mk (d :: ds)))
    else none

/-- A build identifier: one-or-more of `[0-9a-zA-Z-]`. -/
def validBuildId (g : List Char) : Option String :=
  if g.isEmpty then none
  else if g.all idChar then some (String.mk g) else none

/-- `major.minor.patch`, three dot-separated numeric identifiers. -/
def parseMain (cs : List Char) : Option (Nat × Nat × Nat × List Char) := do
  let (mj, r1) ← parseNumId cs
  let r2 ← expectDot r1
  let (mi, r3) ← parseNumId r2
  let r4 ← expectDot r3
  let (pa, r5) ← parseNumId r4
  return (mj, mi, pa, r5)

/-- Dot-separated build identifiers. -/
def parseBuild (r3 : List Char) : Option (List String) :=
  (splitDots r3).mapM validBuildId

/-- The optional `+build` tail after the prerelease part. -/
def parseAfterPre : List Char → Option (List String)
  | [] => some []
  | c :: r3 => if c = '+' then parseBuild r3 else none

/-- The optional `-prerelease` and `+build` tails. -/
def parseTail : List Char → Option (List PreId × List String)
  | [] => some ([], [])
  | c :: r =>
    if c = '-' then do
      let pre ← (splitDots (r.takeWhile fun a => a ≠ '+')).mapM validPreId
      let b ← parseAfterPre (r.dropWhile fun a => a ≠ '+')
      return (pre, b)
    else if c = '+' then do
      let b ← parseBuild r
      return ([], b)
    else none

/-- The anchored strict semver grammar after the optional `v` prefix. -/
def parseSVCore (cs : List Char) : Option (Nat × Nat × Nat × List PreId × List String) := do
  let (mj, mi, pa, rest) ← parseMain cs
  let (pre, b) ← parseTail rest
  return (mj, mi, pa, pre, b)

/-- Drop one optional leading `v`. -/
def dropV : List Char → List Char
  | [] => []
  | c :: r => if c = 'v' then r else c :: r

/-- The semver library: `valid(s)` followed by `new SemVer(s, ...)`;
`raw` keeps the input string with any `v` prefix. -/
def semverParse (s : String) : Option MSemVer :=
  (parseSVCore (dropV s.data)).map fun (mj, mi, pa, pre, b) =>
    { major := mj, minor := mi, patch := pa, pre := pre, build := b, raw := s }

/-- A prerelease identifier as printed in `SemVer.version`. -/
def renderPreId : PreId → String
  | .num n => Nat.repr n
  | .str s => s

/-- Join with dots. -/
def joinDots : List String → String
  | [] => ""
  | [x] => x
  | x :: y :: ys => x ++ "." ++ joinDots (y :: ys)

/-- `SemVer.version`: `major.minor.patch` plus the dotted prerelease part;
the `v` prefix and the build part never appear here. -/
def renderVersion (v : MSemVer) : String :=
  Nat.repr v.major ++ "." ++ Nat.repr v.minor ++ "." ++ Nat.repr v.patch ++
    (if v.pre.isEmpty then "" else "-" ++ joinDots (v.pre.map renderPreId))

/-! ### Semver precedence, as in the library's `compare`/`gte` -/

/-- Lexicographic comparison of strings by code units, as in the
JavaScript `<` on strings used by `compareIdentifiers`. -/
def cmpChars : List Char → List Char → Ordering
  | [], [] => .eq
  | [], _ :: _ => .lt
  | _ :: _, [] => .gt
  | a :: as, b :: bs =>
    if a.val < b.val then .lt
    else if b.val < a.val then .gt
    else cmpChars as bs

/-- `compareIdentifiers`: numeric identifiers compare as numbers and sort
below alphanumeric ones. -/
def cmpPreId : PreId → PreId → Ordering
  | .num a, .num b => compare a b
  | .num _, .str _ => .lt
  | .str _, .num _ => .gt
  | .str a, .str b => cmpChars a.data b.data

/-- `comparePre`: a version without prerelease outranks one with;
otherwise identifiers compare pairwise and a longer list outranks its
prefix. -/
def cmpPre : List PreId → List PreId → Ordering
  | [], [] => .eq
  | [], _ :: _ => .gt
  | _ :: _, [] => .lt
  | a :: as, b :: bs =>
    match cmpPreId a b with
    | .eq => cmpPre as bs
    | o => o

/-- `compare`: main numbers first, then prerelease; build is ignored. -/
def cmpSV (a b : MSemVer) : Ordering :=
  match compare a.major b.major with
  | .eq =>
    match compare a.minor b.minor with
    | .eq =>
      match compare a.patch b.patch with
      | .eq => cmpPre a.pre b.pre
      | o => o
    | o => o
  | o => o

/-- `gte(a, b)`. -/
def semverGte (a b : MSemVer) : Bool :=
  match cmpSV a b with
  | .lt => false
  | _ => true

/-- `new SemVer('0.29.0')`, the proto-archive availability threshold. -/
def sv0290 : MSemVer :=
  { major := 0, minor := 29, patch := 0, pre := [], build := [], raw := "0.29.0" }

/-- `canDownloadProtos` of `generate.ts`. -/
def canDownloadProtos (v : MSemVer) : Bool :=
  semverGte v sv0290

/-- `parseSemver` of `generate.ts`: gate on validity, then classify into a
downloadable release (`>= 0.29.0`) or a GitHub checkout of the canonical
repository at the normalized version. -/
def parseSemver (src : String) : Option (MSemVer ⊕ GitHub) :=
  match semverParse src with
  | none => none
  | some sv =>
    if canDownloadProtos sv then some (.inl sv)
    else some (.inr { arduinoGitHub with commit := some (renderVersion sv) })

/-! ### Version policy: `protoLocation` -/

/-- One step of `download`'s acquisition behavior. -/
inductive DlEv where
  | fetch (version : String)
  | copyGoogle
  | disposeNested
deriving DecidableEq, Repr

/-- `new SemVer('v1.0.4')`, the version pinned by the compatibility patch
for `arduino/arduino-cli#2755`. -/
def sv104 : MSemVer :=
  (semverParse "v1.0.4").getD
    { major := 0, minor := 0, patch := 0, pre := [], build := [], raw := "" }

/-- The acquisition plan of `download`: fetch the requested archive and,
unless the requested version is exactly `1.0.4`, recursively fetch the
`1.0.4` archive, copy its `google/` subtree over the target, and dispose
the nested handle. -/
def downloadPlan (semver : MSemVer) : List DlEv :=
  if renderVersion semver = "1.0.4" then
    [.fetch (renderVersion semver)]
  else
    .fetch (renderVersion semver) :: (downloadPlan sv104 ++ [.copyGoogle, .disposeNested])
termination_by (if renderVersion semver = "1.0.4" then 0 else 1)
decreasing_by
  have h104 : renderVersion sv104 = "1.0.4" := by decide
  simp_all

/-- Is a plan step an archive fetch? -/
def isFetch : DlEv → Bool
  | .fetch _ => true
  | _ => false

/-! ### The generation driver

The default export of `generate.ts` sequences pure decisions
(output-existence gate, local discovery, locator parsing) with effectful
collaborators (acquisition, `fs.mkdir`, the protoc invocation). The
collaborator outcomes are an explicit environment; the driver itself is
the code's control flow over them, and it reports both its result and the
trace of the effects it performed. -/

/-- An effect performed by the driver. -/
inductive DEv where
  | acquireAttempt
  | mkdirOut (out : String)
  | invokeProtoc (dir : String) (protos : List String)
  | dispose
deriving DecidableEq, Repr

/-- The handle returned by `download`/`clone`. -/
structure Handle where
  protoPath : String
deriving DecidableEq, Repr

/-- The driver's failure modes, with the messages the code throws. -/
inductive DErr where
  | outputExists (out : String)
  | invalidSrc (src : String)
  | globFailed (path : String)
  | mkdirFailed (out : String) (reason : String)
  | acquireErr (msg : String)
  | protocErr (msg : String)
deriving DecidableEq, Repr

/-- The message of each error, as thrown by `generate.ts`. -/
def errMsg : DErr → String
  | .outputExists out => out ++ " already exists. Use \x27--force\x27 to override output"
  | .invalidSrc src => "Invalid <src>: " ++ src
  | .globFailed path => "Failed to glob in " ++ path
  | .mkdirFailed out reason => "Failed to create \x27--out\x27 " ++ out ++ ": " ++ reason
  | .acquireErr msg => msg
  | .protocErr msg => msg

deriving instance DecidableEq for Except

/-- Collaborator outcomes for one run: does the output directory exist,
what local discovery finds at `src` (`none` = glob failure), the result of
`download`/`clone`, what discovery finds at the acquired path, whether
`fs.mkdir` succeeds, and the protoc invocation result. -/
structure DEnv where
  outExists : Bool
  localProtos : Option (List String)
  acquireResult : Except String Handle
  acquiredProtos : Option (List String)
  mkdirOk : Bool
  mkdirReason : String
  protocResult : Except String Unit
deriving DecidableEq, Repr

/-- The `generate` helper of `generate.ts`: create the output directory
(recursively), then invoke protoc with the plugin argument vector and the
discovered file list. -/
def runGenerate (dir : String) (protos : List String) (out : String) (env : DEnv) :
    Except DErr Unit × List DEv :=
  if env.mkdirOk then
    match env.protocResult with
    | .ok _ => (.ok (), [.mkdirOut out, .invokeProtoc dir protos])
    | .error m => (.error (.protocErr m), [.mkdirOut out, .invokeProtoc dir protos])
  else
    (.error (.mkdirFailed out env.mkdirReason), [])

/-- `parseSemver(src) || parseGitHub(src)`. -/
def locate (src : String) : Option (MSemVer ⊕ GitHub) :=
  match parseSemver src with
  | some loc => some loc
  | none => (parseGitHub src).map Sum.inr

/-- The acquisition arm of the driver: dispatch on the parsed locator,
acquire, rediscover, generate, and dispose in a `finally` block. A glob
failure (`undefined` from `globProtos`) aborts with the
`Failed to glob in ...` error; an empty file list does not abort. -/
def runAcquire (src out : String) (env : DEnv) : Except DErr Unit × List DEv :=
  match locate src with
  | none => (.error (.invalidSrc src), [])
  | some _ =>
    match env.acquireResult with
    | .error m => (.error (.acquireErr m), [.acquireAttempt])
    | .ok hdl =>
      match env.acquiredProtos with
      | none => (.error (.globFailed hdl.protoPath), [.acquireAttempt, .dispose])
      | some protos =>
        let rg := runGenerate hdl.protoPath protos out env
        (rg.1, .acquireAttempt :: rg.2 ++ [.dispose])

/-- The default export of `generate.ts`: output-existence gate, local
discovery short-circuit, locator parsing, acquisition, discovery over the
acquired directory (only a glob failure aborts — an empty file list does
not), generation, and disposal in a `finally` block. -/
def runDriver (src out : String) (force : Bool) (env : DEnv) :
    Except DErr Unit × List DEv :=
  if force = false ∧ env.outExists = true then
    (.error (.outputExists out), [])
  else
    match env.localProtos with
    | some (p :: ps) => runGenerate src (p :: ps) out env
    | some [] => runAcquire src out env
    | none => runAcquire src out env

/-! ### Disposal

Both handles dispose with a bare `() => rimraf(path)`, and the driver
awaits it inside `finally` with no catch anywhere. `rimraf` is an
external collaborator with `rm -rf` semantics: removing a missing or
already partially removed tree is not an error, but removal itself can
fail (a permission error such as EACCES), and then the returned promise
rejects. The modelled filesystem is the list of existing paths together
with the entries the process cannot remove; `rimrafFS` is the successful
removal of a subtree, `rimrafM` the collaborator with its error path,
`disposeFS` the handle's `dispose`, and `finallyDispose` the driver's
`finally` block, in which an awaited rejection replaces the protected
block's outcome and propagates to the caller. -/

/-- Successful `rm -rf`: drop every path at or below the given root. -/
def rimrafFS (root : List String) (fs : List (List String)) : List (List String) :=
  fs.filter fun q => !(root.isPrefixOf q)

/-- The filesystem as `rimraf` sees it: the existing paths and the
entries the process cannot remove. -/
structure FS where
  paths : List (List String)
  locked : List (List String)
deriving DecidableEq, Repr

/-- `rimraf(root)`: when no existing entry below the root is unremovable,
the subtree is dropped and the promise resolves — in particular removing
a missing or already partially removed tree is not an error; when an
unremovable entry is in the way, the promise rejects. -/
def rimrafM (root : List String) (fs : FS) : Except String FS :=
  if (fs.paths.filter fun q => root.isPrefixOf q).any (fun q => fs.locked.contains q) then
    .error "EACCES: permission denied"
  else
    .ok { fs with paths := rimrafFS root fs.paths }

/-- `dispose` of a `download`/`clone` handle: the bare `() => rimraf(path)`
of `generate.ts`, with no catch of its own. -/
def disposeFS (root : List String) (fs : FS) : Except String FS :=
  rimrafM root fs

/-- The driver's `finally` block around `await dispose()`: a rejection of
the awaited disposal replaces the protected block's outcome — success or
failure alike — and propagates to the caller. -/
def finallyDispose (body : Except String Unit) (d : Except String FS) : Except String Unit :=
  match d with
  | .error e => .error e
  | .ok _ => body



/-! ## Helper lemmas -/

theorem strExt {a b : String} (h : a.data = b.data) : a = b :=
  congrArg String.mk h

theorem strDataAppend (a b : String) : (a ++ b).data = a.data ++ b.data := rfl

theorem memTakeWhile {p : Char → Bool} :
    ∀ {l : List Char} {a : Char}, a ∈ l.takeWhile p → p a = true := by
  intro l
  induction l with
  | nil => intro a h; simp [List.takeWhile] at h
  | cons c t ih =>
    intro a h
    rw [List.takeWhile_cons] at h
    by_cases hc : p c = true
    · rw [if_pos hc] at h
      rcases List.mem_cons.mp h with h1 | h2
      · exact h1 ▸ hc
      · exact ih h2
    · rw [if_neg hc] at h
      simp at h

theorem takeDropAppend {p : Char → Bool} :
    ∀ (l : List Char) (x : Char) (r : List Char),
      (∀ c ∈ l, p c = true) → p x = false →
      (l ++ x :: r).takeWhile p = l ∧ (l ++ x :: r).dropWhile p = x :: r := by
  intro l
  induction l with
  | nil =>
    intro x r _ hx
    refine ⟨?_, ?_⟩
    · simp [List.takeWhile_cons, hx]
    · simp [List.dropWhile_cons, hx]
  | cons c t ih =>
    intro x r hall hx
    have hc : p c = true := hall c (List.mem_cons_self c t)
    have iht := ih x r (fun a ha => hall a (List.mem_cons_of_mem c ha)) hx
    refine ⟨?_, ?_⟩
    · simp [List.takeWhile_cons, hc, iht.1]
    · simp [List.dropWhile_cons, hc, iht.2]

theorem takeDropAll {p : Char → Bool} :
    ∀ (l : List Char), (∀ c ∈ l, p c = true) →
      l.takeWhile p = l ∧ l.dropWhile p = [] := by
  intro l
  induction l with
  | nil => intro h; exact ⟨rfl, rfl⟩
  | cons c t ih =>
    intro hall
    have hc : p c = true := hall c (List.mem_cons_self c t)
    have iht := ih fun a ha => hall a (List.mem_cons_of_mem c ha)
    refine ⟨?_, ?_⟩
    · simp [List.takeWhile_cons, hc, iht.1]
    · simp [List.dropWhile_cons, hc, iht.2]

theorem isEmptyFalse {l : List Char} (h : l ≠ []) : l.isEmpty = false := by
  cases l with
  | nil => exact absurd rfl h
  | cons c t => rfl

theorem neNilOfNotEmpty {l : List Char} (h : ¬ l.isEmpty = true) : l ≠ [] := by
  cases l with
  | nil => simp at h
  | cons c t => simp

/-! ## The source-reference pattern: specification shape -/

/-- Render a parsed source reference back to the input that denotes it. -/
def ghRender (g : GitHub) : String :=
  match g.commit with
  | none => g.owner ++ "/" ++ g.repo
  | some c => g.owner ++ "/" ++ g.repo ++ "#" ++ c

/-- The character-level `[#commit]` tail of the rendering. -/
def ghTailL : Option String → List Char
  | none => []
  | some c => '#' :: c.data

/-- The `owner/repo[#commit]` shape: nonempty owner over `[0-9a-zA-Z-]`,
nonempty repo over `[0-9a-zA-Z-_.]`, and, when the `#commit` part is
present, a nonempty commit with no whitespace character. -/
def ghWF (g : GitHub) : Prop :=
  g.owner.data ≠ [] ∧ (∀ c ∈ g.owner.data, ownerChar c = true) ∧
    g.repo.data ≠ [] ∧ (∀ c ∈ g.repo.data, repoChar c = true) ∧
    ∀ cm, g.commit = some cm → cm.data ≠ [] ∧ ∀ c ∈ cm.data, commitChar c = true

theorem ghRender_data (g : GitHub) :
    (ghRender g).data = g.owner.data ++ '/' :: (g.repo.data ++ ghTailL g.commit) := by
  obtain ⟨ow, rp, cm⟩ := g
  have hslash : ("/" : String).data = ['/'] := rfl
  have hhash : ("#" : String).data = ['#'] := rfl
  cases cm with
  | none =>
    show ((ow ++ "/") ++ rp).data = ow.data ++ '/' :: (rp.data ++ ghTailL none)
    rw [strDataAppend, strDataAppend, hslash, ghTailL, List.append_nil]
    simp [List.append_assoc]
  | some c =>
    show ((((ow ++ "/") ++ rp) ++ "#") ++ c).data =
      ow.data ++ '/' :: (rp.data ++ ghTailL (some c))
    rw [strDataAppend, strDataAppend, strDataAppend, strDataAppend, hslash, hhash, ghTailL]
    simp [List.append_assoc]

theorem parseCommitPart_inv_none {l : List Char}
    (h : parseCommitPart l = some none) : l = [] := by
  cases l with
  | nil => rfl
  | cons hd rest =>
    simp only [parseCommitPart] at h
    split at h
    · split at h
      · exact absurd h (by simp)
      · split at h
        · exact absurd h (by simp)
        · exact absurd h (by simp)
    · exact absurd h (by simp)

theorem parseCommitPart_inv_some {l c : List Char}
    (h : parseCommitPart l = some (some c)) :
    l = '#' :: c ∧ c ≠ [] ∧ ∀ a ∈ c, commitChar a = true := by
  cases l with
  | nil => exact absurd h (by simp [parseCommitPart])
  | cons hd rest =>
    simp only [parseCommitPart] at h
    split at h
    · rename_i hhd
      split at h
      · exact absurd h (by simp)
      · rename_i hrest
        split at h
        · rename_i hall
          injection h with h1
          injection h1 with h2
          subst h2
          exact ⟨by rw [hhd], neNilOfNotEmpty (by simpa using hrest),
            fun a ha => List.all_eq_true.mp hall a ha⟩
        · exact absurd h (by simp)
    · exact absurd h (by simp)

theorem parseGitHubL_sound {cs : List Char} {g : GitHub}
    (h : parseGitHubL cs = some g) :
    ghWF g ∧ cs = g.owner.data ++ '/' :: (g.repo.data ++ ghTailL g.commit) := by
  have hsplit : cs.takeWhile ownerChar ++ cs.dropWhile ownerChar = cs :=
    List.takeWhile_append_dropWhile ownerChar cs
  unfold parseGitHubL at h
  cases hdw : cs.dropWhile ownerChar with
  | nil => rw [hdw] at h; exact absurd h (by simp [parseGitHubAfterOwner])
  | cons sep rest2 =>
    rw [hdw] at h
    simp only [parseGitHubAfterOwner] at h
    split at h
    · rename_i hsep
      subst hsep
      split at h
      · exact absurd h (by simp)
      · rename_i hne
        simp only [Bool.or_eq_true, not_or] at hne
        obtain ⟨hone, hrne⟩ := hne
        have hone' := neNilOfNotEmpty hone
        have hrne' := neNilOfNotEmpty hrne
        have hsplit2 : rest2.takeWhile repoChar ++ rest2.dropWhile repoChar = rest2 :=
          List.takeWhile_append_dropWhile repoChar rest2
        split at h
        · exact absurd h (by simp)
        · rename_i hcp
          injection h with h1
          subst h1
          have hrest2 := parseCommitPart_inv_none hcp
          dsimp only
          refine ⟨⟨hone', fun a ha => memTakeWhile ha, hrne',
            fun a ha => memTakeWhile ha, by rintro cm ⟨⟩⟩, ?_⟩
          simp only [ghTailL, List.append_nil]
          have hr2 : rest2.takeWhile repoChar = rest2 := by
            rw [hrest2, List.append_nil] at hsplit2
            exact hsplit2
          rw [hr2]
          conv_lhs => rw [← hsplit]
          rw [hdw]
        · rename_i c hcp
          injection h with h1
          subst h1
          obtain ⟨hrest3, hcne, hcall⟩ := parseCommitPart_inv_some hcp
          dsimp only
          refine ⟨⟨hone', fun a ha => memTakeWhile ha, hrne',
            fun a ha => memTakeWhile ha, ?_⟩, ?_⟩
          · rintro cm hcm
            injection hcm with h2
            subst h2
            exact ⟨hcne, hcall⟩
          · simp only [ghTailL]
            have hr2 : rest2.takeWhile repoChar ++ '#' :: c = rest2 := by
              rw [hrest3] at hsplit2
              exact hsplit2
            rw [hr2]
            conv_lhs => rw [← hsplit]
            rw [hdw]
    · exact absurd h (by simp)

theorem parseGitHubL_complete {g : GitHub} (wf : ghWF g) :
    parseGitHubL (g.owner.data ++ '/' :: (g.repo.data ++ ghTailL g.commit)) = some g := by
  obtain ⟨ow, rp, cm⟩ := g
  obtain ⟨ho, hoc, hr, hrc, hcm⟩ := wf
  dsimp only at ho hoc hr hrc hcm ⊢
  have hofalse : ownerChar '/' = false := by decide
  have htd := takeDropAppend ow.data '/' (rp.data ++ ghTailL cm) hoc hofalse
  unfold parseGitHubL
  rw [htd.1, htd.2]
  cases cm with
  | none =>
    simp only [ghTailL, List.append_nil]
    simp only [parseGitHubAfterOwner]
    have htr := takeDropAll rp.data hrc
    rw [htr.1, htr.2]
    simp [isEmptyFalse ho, isEmptyFalse hr, parseCommitPart]
  | some c =>
    obtain ⟨hcne, hcall⟩ := hcm c rfl
    simp only [ghTailL]
    simp only [parseGitHubAfterOwner]
    have htr := takeDropAppend rp.data '#' c.data hrc (by decide)
    rw [htr.1, htr.2]
    have hcp : parseCommitPart ('#' :: c.data) = some (some c.data) := by
      simp [parseCommitPart, isEmptyFalse hcne, List.all_eq_true.mpr hcall]
    rw [hcp]
    simp [isEmptyFalse ho, isEmptyFalse hr]



/-! ## Semver parsing facts -/

theorem parseNumId_head {cs : List Char} {nr : Nat × List Char}
    (h : parseNumId cs = some nr) :
    ∃ d t, cs = d :: t ∧ d.isDigit = true := by
  unfold parseNumId at h
  cases htw : cs.takeWhile Char.isDigit with
  | nil => rw [htw] at h; simp at h
  | cons d ds =>
    cases cs with
    | nil => simp [List.takeWhile] at htw
    | cons c t =>
      rw [List.takeWhile_cons] at htw
      by_cases hc : Char.isDigit c = true
      · exact ⟨c, t, rfl, hc⟩
      · rw [if_neg hc] at htw; simp at htw

theorem parseMain_head {cs : List Char} {m : Nat × Nat × Nat × List Char}
    (h : parseMain cs = some m) :
    ∃ d t, cs = d :: t ∧ d.isDigit = true := by
  unfold parseMain at h
  cases hpn : parseNumId cs with
  | none => rw [hpn] at h; simp at h
  | some nr => exact parseNumId_head hpn

theorem parseSVCore_head {cs : List Char} {c : Nat × Nat × Nat × List PreId × List String}
    (h : parseSVCore cs = some c) :
    ∃ d t, cs = d :: t ∧ d.isDigit = true := by
  unfold parseSVCore at h
  cases hm : parseMain cs with
  | none => rw [hm] at h; simp at h
  | some m => exact parseMain_head hm

theorem dropV_of_digit {cs : List Char}
    (h : ∃ d t, cs = d :: t ∧ d.isDigit = true) : dropV cs = cs := by
  obtain ⟨d, t, rfl, hd⟩ := h
  have hne : ¬(d = 'v') := by
    intro he
    rw [he] at hd
    exact absurd hd (by decide)
  simp only [dropV, if_neg hne]

/-! ## Claims -/

/-- C6: the source-ref parser accepts exactly the strings
`owner/repo` optionally followed by `#commit` — owner one-or-more of
`[A-Za-z0-9-]`, repo one-or-more of `[A-Za-z0-9-_.]`, commit one-or-more
non-whitespace characters — yielding owner and repo with no commit field
when `#` is absent and with the commit when present; in particular the
seven listed strings are all rejected. -/
theorem parseGitHub_spec :
    (∀ s g, parseGitHub s = some g ↔ (ghWF g ∧ s = ghRender g)) ∧
    parseGitHub ".owner/repo" = none ∧
    parseGitHub "_owner/repo" = none ∧
    parseGitHub "owner/re po" = none ∧
    parseGitHub "owner/repo#" = none ∧
    parseGitHub "/owner/repo" = none ∧
    parseGitHub "owner/repo/" = none ∧
    parseGitHub "owner/repo#one two" = none := by
  refine ⟨?_, by decide, by decide, by decide, by decide, by decide, by decide, by decide⟩
  intro s g
  constructor
  · intro h
    obtain ⟨hwf, hdecomp⟩ :=
      parseGitHubL_sound (show parseGitHubL s.data = some g from h)
    refine ⟨hwf, strExt ?_⟩
    rw [ghRender_data, ← hdecomp]
  · rintro ⟨hwf, rfl⟩
    show parseGitHubL (ghRender g).data = some g
    rw [ghRender_data g]
    exact parseGitHubL_complete hwf

/-- C4: on every strictly valid semver input, `parseSemver` classifies to
the parsed release version when it is at least `0.29.0` and otherwise to
a source reference at `arduino/arduino-cli` whose commit is the normalized
version; and a leading `v` is stripped from the normalized version, in the
sense that the `v`-prefixed input parses to the same components as the
unprefixed one (only `raw` differs). -/
theorem parseSemver_spec :
    (∀ s sv, semverParse s = some sv →
        parseSemver s =
          some (if semverGte sv sv0290 then Sum.inl sv
            else Sum.inr ⟨"arduino", "arduino-cli", some (renderVersion sv)⟩)) ∧
    (∀ t sv, semverParse ("v" ++ t) = some sv →
        semverParse t = some { sv with raw := t }) := by
  constructor
  · intro s sv h
    simp only [parseSemver, h, canDownloadProtos, arduinoGitHub]
    split <;> rfl
  · intro t sv h
    unfold semverParse at h ⊢
    have hd : ("v" ++ t).data = 'v' :: t.data := rfl
    rw [hd] at h
    have hdv : dropV ('v' :: t.data) = t.data := by simp [dropV]
    rw [hdv] at h
    cases hc : parseSVCore t.data with
    | none => rw [hc] at h; simp at h
    | some c =>
      rw [hc] at h
      have hdv2 : dropV t.data = t.data := dropV_of_digit (parseSVCore_head hc)
      rw [hdv2, hc]
      obtain ⟨mj, mi, pa, pre, b⟩ := c
      injection h with h1
      rw [← h1]
      rfl

theorem parseSemver_spec_witness :
    semverParse "v0.29.1" = some ⟨0, 29, 1, [], [], "v0.29.1"⟩ ∧
    parseSemver "v0.29.1" =
      some (if semverGte ⟨0, 29, 1, [], [], "v0.29.1"⟩ sv0290
        then Sum.inl ⟨0, 29, 1, [], [], "v0.29.1"⟩
        else Sum.inr ⟨"arduino", "arduino-cli",
          some (renderVersion ⟨0, 29, 1, [], [], "v0.29.1"⟩)⟩) ∧
    semverParse "0.29.1" = some { (⟨0, 29, 1, [], [], "v0.29.1"⟩ : MSemVer) with raw := "0.29.1" } :=
  ⟨by decide,
    parseSemver_spec.1 "v0.29.1" ⟨0, 29, 1, [], [], "v0.29.1"⟩ (by decide),
    parseSemver_spec.2 "0.29.1" ⟨0, 29, 1, [], [], "v0.29.1"⟩ (by decide)⟩

theorem downloadPlan_cases (v : MSemVer) :
    downloadPlan v =
      if renderVersion v = "1.0.4" then [DlEv.fetch "1.0.4"]
      else [DlEv.fetch (renderVersion v), DlEv.fetch "1.0.4", DlEv.copyGoogle,
        DlEv.disposeNested] := by
  have h104 : renderVersion sv104 = "1.0.4" := by decide
  by_cases h : renderVersion v = "1.0.4"
  · rw [if_pos h]
    unfold downloadPlan
    rw [if_pos h, h]
  · rw [if_neg h]
    unfold downloadPlan
    rw [if_neg h]
    unfold downloadPlan
    rw [if_pos h104, h104]
    rfl

/-- C5: for every version other than exactly `1.0.4`, the download
acquisition additionally fetches the `1.0.4` archive via the same
operation, copies its `google/` subtree over the target, and disposes the
nested handle right after the copy, all before returning; for `1.0.4`
itself no nested acquisition occurs. -/
theorem download_patch_spec (semver : MSemVer) :
    downloadPlan semver =
      if renderVersion semver = "1.0.4" then [DlEv.fetch "1.0.4"]
      else [DlEv.fetch (renderVersion semver), DlEv.fetch "1.0.4", DlEv.copyGoogle,
        DlEv.disposeNested] :=
  downloadPlan_cases semver

/-- C10: `download` terminates on every input: the only self-call passes
`1.0.4`, whose normalized version makes the recursion guard false, so the
plan of the nested call performs a single fetch and the total number of
fetches never exceeds two. -/
theorem download_depth_spec (semver : MSemVer) :
    (downloadPlan semver).countP isFetch ≤ 2 ∧
    downloadPlan sv104 = [DlEv.fetch "1.0.4"] ∧
    renderVersion sv104 = "1.0.4" := by
  have h104 : renderVersion sv104 = "1.0.4" := by decide
  refine ⟨?_, ?_, h104⟩
  · rw [downloadPlan_cases]
    by_cases h : renderVersion semver = "1.0.4"
    · rw [if_pos h]; decide
    · rw [if_neg h]
      simp [List.countP_cons, isFetch]
  · rw [downloadPlan_cases, if_pos h104]



/-! ## Driver facts -/

theorem runGenerate_trace (dir : String) (protos : List String) (out : String) (env : DEnv) :
    (runGenerate dir protos out env).2 = [] ∨
    (runGenerate dir protos out env).2 = [DEv.mkdirOut out, DEv.invokeProtoc dir protos] := by
  unfold runGenerate
  by_cases hm : env.mkdirOk = true
  · rw [if_pos hm]
    cases hp : env.protocResult with
    | ok u => right; rfl
    | error m => right; rfl
  · rw [if_neg hm]
    left
    rfl

theorem runGenerate_no_acquire (dir : String) (protos : List String) (out : String)
    (env : DEnv) : DEv.acquireAttempt ∉ (runGenerate dir protos out env).2 := by
  rcases runGenerate_trace dir protos out env with h | h <;> rw [h] <;> simp

theorem runGenerate_no_dispose (dir : String) (protos : List String) (out : String)
    (env : DEnv) : DEv.dispose ∉ (runGenerate dir protos out env).2 := by
  rcases runGenerate_trace dir protos out env with h | h <;> rw [h] <;> simp

theorem runAcquire_dispose_once (src out : String) (env : DEnv) (hdl : Handle)
    (hacq : env.acquireResult = .ok hdl)
    (hmem : DEv.acquireAttempt ∈ (runAcquire src out env).2) :
    (runAcquire src out env).2.countP (fun e => e == DEv.dispose) = 1 := by
  unfold runAcquire at hmem ⊢
  cases hl : locate src with
  | none =>
    rw [hl] at hmem
    simp at hmem
  | some loc =>
    dsimp only
    rw [hacq]
    cases hap : env.acquiredProtos with
    | none => rfl
    | some protos =>
      dsimp only
      have hz : (runGenerate hdl.protoPath protos out env).2.countP
          (fun e => e == DEv.dispose) = 0 := by
        refine List.countP_eq_zero.mpr ?_
        intro a ha hbe
        rw [show a = DEv.dispose from by simpa using hbe] at ha
        exact runGenerate_no_dispose hdl.protoPath protos out env ha
      simp [List.countP_cons, List.countP_append, hz]

/-- C2: whenever acquisition returned a handle, the driver performs the
`dispose` effect exactly once before finishing, on the success path, the
discovery-failure path and the generator-failure path alike. -/
theorem driver_dispose_spec :
    ∀ (src out : String) (force : Bool) (env : DEnv) (hdl : Handle),
      env.acquireResult = .ok hdl →
      DEv.acquireAttempt ∈ (runDriver src out force env).2 →
      (runDriver src out force env).2.countP (fun e => e == DEv.dispose) = 1 := by
  intro src out force env hdl hacq hmem
  unfold runDriver at hmem ⊢
  by_cases hgate : (force = false ∧ env.outExists = true)
  · rw [if_pos hgate] at hmem
    simp at hmem
  · rw [if_neg hgate] at hmem ⊢
    cases hlp : env.localProtos with
    | none =>
      rw [hlp] at hmem
      exact runAcquire_dispose_once src out env hdl hacq hmem
    | some ps =>
      cases ps with
      | nil =>
        rw [hlp] at hmem
        exact runAcquire_dispose_once src out env hdl hacq hmem
      | cons p pt =>
        rw [hlp] at hmem
        exact absurd hmem (runGenerate_no_acquire src (p :: pt) out env)

theorem driver_dispose_spec_witness :
    (⟨false, none, Except.ok ⟨"/tmp/rpc"⟩, some ["a.proto"], true, "",
        Except.ok ()⟩ : DEnv).acquireResult = Except.ok ⟨"/tmp/rpc"⟩ ∧
    DEv.acquireAttempt ∈ (runDriver "arduino/arduino-cli" "out" false
      ⟨false, none, Except.ok ⟨"/tmp/rpc"⟩, some ["a.proto"], true, "", Except.ok ()⟩).2 ∧
    (runDriver "arduino/arduino-cli" "out" false
      ⟨false, none, Except.ok ⟨"/tmp/rpc"⟩, some ["a.proto"], true, "",
        Except.ok ()⟩).2.countP (fun e => e == DEv.dispose) = 1 :=
  ⟨rfl, by decide,
    driver_dispose_spec "arduino/arduino-cli" "out" false
      ⟨false, none, Except.ok ⟨"/tmp/rpc"⟩, some ["a.proto"], true, "", Except.ok ()⟩
      ⟨"/tmp/rpc"⟩ rfl (by decide)⟩

/-- C7: when local discovery at `src` finds a nonempty file list and the
output gate passes, the driver is exactly a direct generator invocation
against `src` with that list: no acquisition and no disposal occur — even
when `src` would also parse as a semver or source reference. -/
theorem driver_local_spec :
    ∀ (src out : String) (force : Bool) (env : DEnv) (p : String) (ps : List String),
      env.localProtos = some (p :: ps) →
      ¬(force = false ∧ env.outExists = true) →
      runDriver src out force env = runGenerate src (p :: ps) out env ∧
      DEv.acquireAttempt ∉ (runDriver src out force env).2 ∧
      DEv.dispose ∉ (runDriver src out force env).2 := by
  intro src out force env p ps hlp hgate
  have hrun : runDriver src out force env = runGenerate src (p :: ps) out env := by
    unfold runDriver
    rw [if_neg hgate, hlp]
  refine ⟨hrun, ?_, ?_⟩ <;> rw [hrun]
  · exact runGenerate_no_acquire src (p :: ps) out env
  · exact runGenerate_no_dispose src (p :: ps) out env

theorem driver_local_spec_witness :
    (⟨false, some ["cli.proto"], Except.error "offline", none, true, "",
        Except.ok ()⟩ : DEnv).localProtos = some ["cli.proto"] ∧
    ¬(false = false ∧ (⟨false, some ["cli.proto"], Except.error "offline", none, true, "",
        Except.ok ()⟩ : DEnv).outExists = true) ∧
    (runDriver "0.30.0" "out" false
        ⟨false, some ["cli.proto"], Except.error "offline", none, true, "", Except.ok ()⟩ =
      runGenerate "0.30.0" ["cli.proto"] "out"
        ⟨false, some ["cli.proto"], Except.error "offline", none, true, "", Except.ok ()⟩ ∧
    DEv.acquireAttempt ∉ (runDriver "0.30.0" "out" false
      ⟨false, some ["cli.proto"], Except.error "offline", none, true, "", Except.ok ()⟩).2 ∧
    DEv.dispose ∉ (runDriver "0.30.0" "out" false
      ⟨false, some ["cli.proto"], Except.error "offline", none, true, "", Except.ok ()⟩).2) :=
  ⟨rfl, by decide,
    driver_local_spec "0.30.0" "out" false
      ⟨false, some ["cli.proto"], Except.error "offline", none, true, "", Except.ok ()⟩
      "cli.proto" [] rfl (by decide)⟩

/-- C8: with an existing output directory and no force flag, the driver
fails with the `OutputExists` error — whose message contains
"already exists" — and performs no effect at all: no directory creation,
no acquisition, no generator invocation, no disposal. -/
theorem driver_output_gate_spec :
    ∀ (src out : String) (force : Bool) (env : DEnv),
      force = false → env.outExists = true →
      runDriver src out force env = (.error (.outputExists out), []) ∧
      ("already exists".data <:+: (errMsg (DErr.outputExists out)).data) := by
  intro src out force env hf ho
  refine ⟨?_, ?_⟩
  · unfold runDriver
    rw [if_pos ⟨hf, ho⟩]
  · refine ⟨out.data ++ [' '], ". Use \x27--force\x27 to override output".data, ?_⟩
    show (out.data ++ [' ']) ++ "already exists".data ++
        ". Use \x27--force\x27 to override output".data =
      (errMsg (DErr.outputExists out)).data
    have hm : (errMsg (DErr.outputExists out)).data =
        out.data ++ " already exists. Use \x27--force\x27 to override output".data := rfl
    rw [hm, List.append_assoc, List.append_assoc]
    exact congrArg (fun l => out.data ++ l) (by decide)

theorem driver_output_gate_spec_witness :
    runDriver "whatever" "/out" false
        ⟨true, none, Except.error "e", none, true, "", Except.ok ()⟩ =
      (Except.error (DErr.outputExists "/out"), []) ∧
    ("already exists".data <:+: (errMsg (DErr.outputExists "/out")).data) :=
  driver_output_gate_spec "whatever" "/out" false
    ⟨true, none, Except.error "e", none, true, "", Except.ok ()⟩ rfl rfl

/-- C1 counterexample: discovery over the acquired directory yields the
empty file list, yet the driver succeeds and invokes the generator with
that empty list instead of failing with the discovery error. -/
theorem driver_empty_discovery_counterexample :
    (runDriver "0.29.0" "out" false
      ⟨false, none, Except.ok ⟨"/tmp/d/rpc"⟩, some [], true, "", Except.ok ()⟩).1 =
        Except.ok () ∧
    DEv.invokeProtoc "/tmp/d/rpc" [] ∈ (runDriver "0.29.0" "out" false
      ⟨false, none, Except.ok ⟨"/tmp/d/rpc"⟩, some [], true, "", Except.ok ()⟩).2 := by
  decide

theorem runAcquire_glob (src out : String) (env : DEnv) (hdl : Handle)
    (hacq : env.acquireResult = .ok hdl) (hap : env.acquiredProtos = none)
    (hmem : DEv.acquireAttempt ∈ (runAcquire src out env).2) :
    (runAcquire src out env).1 = .error (.globFailed hdl.protoPath) ∧
    ∀ d ps, DEv.invokeProtoc d ps ∉ (runAcquire src out env).2 := by
  unfold runAcquire at hmem ⊢
  cases hl : locate src with
  | none =>
    rw [hl] at hmem
    simp at hmem
  | some loc =>
    dsimp only
    rw [hacq, hap]
    refine ⟨rfl, ?_⟩
    intro d ps
    simp

/-- C1 (amended): when discovery over the acquired directory yields
`Absent` (a glob failure), the driver fails with the glob error naming the
acquired path and never invokes the generator; an empty-but-present file
list is not checked and does not take this path. -/
theorem driver_glob_spec :
    ∀ (src out : String) (force : Bool) (env : DEnv) (hdl : Handle),
      env.acquireResult = .ok hdl →
      env.acquiredProtos = none →
      DEv.acquireAttempt ∈ (runDriver src out force env).2 →
      (runDriver src out force env).1 = .error (.globFailed hdl.protoPath) ∧
      (∀ d ps, DEv.invokeProtoc d ps ∉ (runDriver src out force env).2) ∧
      hdl.protoPath.data <:+: (errMsg (DErr.globFailed hdl.protoPath)).data := by
  intro src out force env hdl hacq hap hmem
  have hinf : hdl.protoPath.data <:+: (errMsg (DErr.globFailed hdl.protoPath)).data := by
    refine ⟨"Failed to glob in ".data, [], ?_⟩
    rw [List.append_nil]
    rfl
  unfold runDriver at hmem ⊢
  by_cases hgate : (force = false ∧ env.outExists = true)
  · rw [if_pos hgate] at hmem
    simp at hmem
  · rw [if_neg hgate] at hmem ⊢
    cases hlp : env.localProtos with
    | none =>
      rw [hlp] at hmem
      obtain ⟨h1, h2⟩ := runAcquire_glob src out env hdl hacq hap hmem
      exact ⟨h1, h2, hinf⟩
    | some ps =>
      cases ps with
      | nil =>
        rw [hlp] at hmem
        obtain ⟨h1, h2⟩ := runAcquire_glob src out env hdl hacq hap hmem
        exact ⟨h1, h2, hinf⟩
      | cons p pt =>
        rw [hlp] at hmem
        exact absurd hmem (runGenerate_no_acquire src (p :: pt) out env)

theorem driver_glob_spec_witness :
    (⟨false, none, Except.ok ⟨"/tmp/d/rpc"⟩, none, true, "",
        Except.ok ()⟩ : DEnv).acquireResult = Except.ok ⟨"/tmp/d/rpc"⟩ ∧
    (⟨false, none, Except.ok ⟨"/tmp/d/rpc"⟩, none, true, "",
        Except.ok ()⟩ : DEnv).acquiredProtos = none ∧
    DEv.acquireAttempt ∈ (runDriver "0.29.0" "out" false
      ⟨false, none, Except.ok ⟨"/tmp/d/rpc"⟩, none, true, "", Except.ok ()⟩).2 ∧
    ((runDriver "0.29.0" "out" false
        ⟨false, none, Except.ok ⟨"/tmp/d/rpc"⟩, none, true, "", Except.ok ()⟩).1 =
      Except.error (DErr.globFailed "/tmp/d/rpc") ∧
    (∀ d ps, DEv.invokeProtoc d ps ∉ (runDriver "0.29.0" "out" false
      ⟨false, none, Except.ok ⟨"/tmp/d/rpc"⟩, none, true, "", Except.ok ()⟩).2) ∧
    ("/tmp/d/rpc" : String).data <:+: (errMsg (DErr.globFailed "/tmp/d/rpc")).data) :=
  ⟨rfl, rfl, by decide,
    driver_glob_spec "0.29.0" "out" false
      ⟨false, none, Except.ok ⟨"/tmp/d/rpc"⟩, none, true, "", Except.ok ()⟩
      ⟨"/tmp/d/rpc"⟩ rfl rfl (by decide)⟩

/-- C9 counterexample: with an unremovable entry under the temporary
root, `rimraf` rejects, and the driver's `finally` around `await
dispose()` propagates that rejection to the caller, replacing even a
successful outcome — the disposal failure is escalated, not logged or
ignored. -/
theorem dispose_escalates_counterexample :
    disposeFS ["tmp", "d"] ⟨[["tmp", "d", "rpc"]], [["tmp", "d", "rpc"]]⟩ =
      Except.error "EACCES: permission denied" ∧
    finallyDispose (Except.ok ())
      (disposeFS ["tmp", "d"] ⟨[["tmp", "d", "rpc"]], [["tmp", "d", "rpc"]]⟩) =
      Except.error "EACCES: permission denied" := by
  decide

/-- C9 (amended): after a successful disposal a second `dispose()`
returns without error and leaves the state unchanged; disposal of a
state with no unremovable entry under the root — in particular a
partially or fully removed tree — returns without error; but when the
disposal itself fails, nothing catches it: the failure passes through
the driver's `finally` to the caller, replacing the protected block's
outcome. -/
theorem dispose_spec :
    (∀ (root : List String) (fs fs2 : FS),
        disposeFS root fs = .ok fs2 →
        disposeFS root fs2 = .ok fs2) ∧
    (∀ (root : List String) (fs : FS),
        (∀ q ∈ fs.paths, root.isPrefixOf q = true → fs.locked.contains q = false) →
        ∃ fs2, disposeFS root fs = .ok fs2) ∧
    (∀ (root : List String) (fs : FS) (e : String) (body : Except String Unit),
        disposeFS root fs = .error e →
        finallyDispose body (disposeFS root fs) = .error e) := by
  refine ⟨?_, ?_, ?_⟩
  · intro root fs fs2 h
    obtain ⟨p, lk⟩ := fs
    have hnil : (rimrafFS root p).filter (fun q => root.isPrefixOf q) = [] := by
      unfold rimrafFS
      rw [List.filter_filter]
      simp
    have hidem : rimrafFS root (rimrafFS root p) = rimrafFS root p := by
      unfold rimrafFS
      rw [List.filter_filter]
      simp
    unfold disposeFS rimrafM at h
    split at h
    · exact absurd h (by simp)
    · injection h with h1
      subst h1
      unfold disposeFS rimrafM
      dsimp only
      rw [hnil]
      simp [hidem]
  · intro root fs hno
    refine ⟨{ fs with paths := rimrafFS root fs.paths }, ?_⟩
    have hcond : ((fs.paths.filter fun q => root.isPrefixOf q).any
        (fun q => fs.locked.contains q)) = false := by
      rw [List.any_eq_false]
      intro q hq
      rw [List.mem_filter] at hq
      rw [hno q hq.1 hq.2]
      simp
    unfold disposeFS rimrafM
    rw [hcond]
    simp
  · intro root fs e body h
    unfold finallyDispose
    rw [h]

theorem dispose_spec_witness :
    disposeFS ["tmp", "x"] ⟨[["tmp", "x", "a"], ["keep"]], []⟩ =
      Except.ok ⟨[["keep"]], []⟩ ∧
    disposeFS ["tmp", "x"] ⟨[["keep"]], []⟩ = Except.ok ⟨[["keep"]], []⟩ ∧
    finallyDispose (Except.ok ())
      (disposeFS ["tmp", "d"] ⟨[["tmp", "d", "rpc"]], [["tmp", "d", "rpc"]]⟩) =
      Except.error "EACCES: permission denied" :=
  ⟨by decide,
    dispose_spec.1 ["tmp", "x"] ⟨[["tmp", "x", "a"], ["keep"]], []⟩
      ⟨[["keep"]], []⟩ (by decide),
    dispose_spec.2.2 ["tmp", "d"] ⟨[["tmp", "d", "rpc"]], [["tmp", "d", "rpc"]]⟩
      "EACCES: permission denied" (Except.ok ()) (by decide)⟩


end ArdunnoCliGen
